import Mathlib

/-!
A shallow embedding of `gbench.go`, the load generator gbench.

The load generator of `sinchie/gbench`: `New` validates a configuration, `Run`
splits the total request count over the workers, every worker (`runner`)
performs its quota of GET requests and records each outcome with atomic adds on
four shared `uint64` counters, `progress` renders the percentage completed and
`String` computes the final report.

Machine integers are natural numbers and integers with explicit wrap-around:
a `uint64` is a natural number below `2 ^ 64`, the `int` of Go is taken to be 64 bits
wide (as on amd64 and arm64), and every conversion and every arithmetic
operation of the source reduces its result the way Go does.
-/

namespace gbench

/-! ## Machine integers -/

/-- The Go conversion `uint64(x)` of a signed integer: the value modulo `2 ^ 64`. -/
def uint64 (x : Int) : Nat := (x % 2 ^ 64).toNat

/-- The Go conversion `int(x)` of a `uint64` on a 64-bit platform: the same 64 bits
read as a signed (twos-complement) number. -/
def int (x : Nat) : Int :=
  if x % 2 ^ 64 < 2 ^ 63 then ((x % 2 ^ 64 : Nat) : Int)
  else ((x % 2 ^ 64 : Nat) : Int) - 2 ^ 64

/-- The result of an `int` operation whose mathematical value is `x`: Go keeps the
low 64 bits. -/
def wrapInt (x : Int) : Int := int (uint64 x)

/-- The value `atomic.AddUint64(&v, delta)` stores, for `v` holding `old`. -/
def atomicAddUint64 (old delta : Nat) : Nat := (old + delta) % 2 ^ 64

/-! ## Data model -/

/-- The struct `Count`: four `uint64` counters. -/
structure Count where
  successCount : Nat
  errorCount : Nat
  totalRequestUseTime : Nat
  totalRecvData : Nat
  deriving DecidableEq, Repr

/-- The struct `Gbench`, without `startTime` (a wall-clock reading); `count` is the
`Count` the pointer field refers to. -/
structure Gbench where
  url : String
  concurrency : Nat
  requests : Nat
  count : Count
  deriving DecidableEq, Repr

/-- The value of `new(Count)`. -/
def Count.zero : Count := ⟨0, 0, 0, 0⟩

/-! ## `New` -/

/-- The function `New`: `Except.error msg` stands for printing `msg` and
`os.Exit(1)`, `Except.ok r` for returning `r`. `len(url)` is the number of bytes of
the string. -/
def New (url : String) (concurrency requests : Nat) : Except String Gbench :=
  if url.utf8ByteSize = 0 then
    .error "url not empty"
  else if requests ≤ 0 then
    .error "requests number must be greater than 0"
  else if requests > 0 ∧ requests < concurrency then
    .error "requests number must be greater than the number of concurrency"
  else
    .ok { url := url, concurrency := concurrency, requests := requests, count := Count.zero }

/-! ## The counter operations -/

/-- The method `addSuccessCount`. -/
def addSuccessCount (c : Count) : Count :=
  { c with successCount := atomicAddUint64 c.successCount 1 }

/-- The method `addErrorCount`. -/
def addErrorCount (c : Count) : Count :=
  { c with errorCount := atomicAddUint64 c.errorCount 1 }

/-- The method `addRecvData`. -/
def addRecvData (num : Nat) (c : Count) : Count :=
  { c with totalRecvData := atomicAddUint64 c.totalRecvData num }

/-- The method `addRequestTime`. -/
def addRequestTime (num : Nat) (c : Count) : Count :=
  { c with totalRequestUseTime := atomicAddUint64 c.totalRequestUseTime num }

/-- One atomic counter update, the unit of interleaving between workers. -/
inductive Op where
  | addSuccessCount
  | addErrorCount
  | addRecvData (num : Nat)
  | addRequestTime (num : Nat)
  deriving DecidableEq, Repr

/-- The effect of one atomic update on the shared counters. -/
def Op.apply : Op → Count → Count
  | .addSuccessCount, c => gbench.addSuccessCount c
  | .addErrorCount, c => gbench.addErrorCount c
  | .addRecvData n, c => gbench.addRecvData n c
  | .addRequestTime n, c => gbench.addRequestTime n c

/-- A sequence of updates applied in order. -/
def applyOps (ops : List Op) (c : Count) : Count := ops.foldl (fun c op => op.apply c) c

/-! ## `runner` -/

/-- What one iteration of the loop of `runner` observes from the HTTP client and the
clock. -/
structure Attempt where
  /-- Whether `client.Get` returned `err != nil`. -/
  getErr : Bool
  /-- The value of `resp.StatusCode`. -/
  statusCode : Int
  /-- Whether `ioutil.ReadAll` returned `err != nil`. -/
  readErr : Bool
  /-- The value of `len(data)`, a non-negative `int`. -/
  dataLen : Nat
  /-- The value of `time.Now().Sub(start)`, a `time.Duration` (an `int64` count of
  nanoseconds). -/
  useTime : Int
  deriving DecidableEq, Repr

/-- The atomic updates one iteration of the loop body of `runner` performs, in program
order; each of the three `continue` branches records one error and nothing else. -/
def runnerBody (a : Attempt) : List Op :=
  if a.getErr then [.addErrorCount]
  else if a.statusCode ≠ 200 then [.addErrorCount]
  else if a.readErr then [.addErrorCount]
  else [.addRequestTime (uint64 a.useTime), .addRecvData (uint64 a.dataLen), .addSuccessCount]

/-- The loop `for i := 0; i < requests; i++` of `runner`, from loop index `i` with `k`
iterations left: iteration `i` performs attempt `attempts i`, then the index moves
on, also after a `continue`. -/
def runnerLoop (attempts : Nat → Attempt) : Nat → Nat → List Op
  | _, 0 => []
  | i, k + 1 => runnerBody (attempts i) ++ runnerLoop attempts (i + 1) k

/-- The method `runner` as the sequence of atomic updates it performs: the loop body
runs for `i = 0, ..., requests - 1`, not at all when `requests ≤ 0`. -/
def runner (requests : Int) (attempts : Nat → Attempt) : List Op :=
  runnerLoop attempts 0 requests.toNat

/-! ## `Run` -/

/-- The loop of `Run` with `k` iterations left and `tail` extra requests still to hand
out: the list of the arguments `int(reqs)` of the `go r.runner(wg, int(reqs))`
statements, in launch order. -/
def Gbench.Run.loop (oneTaskRequest : Nat) : Nat → Nat → List Int
  | 0, _ => []
  | k + 1, tail =>
    if tail ≠ 0 then
      int ((oneTaskRequest + 1) % 2 ^ 64) :: Gbench.Run.loop oneTaskRequest k (tail - 1)
    else
      int oneTaskRequest :: Gbench.Run.loop oneTaskRequest k tail

/-- The quotas `Run` hands to the runners it launches, in launch order; `none` is the
run-time panic of `r.requests % r.concurrency` on a zero divisor. The loop
`for i := 0; i < int(r.concurrency); i++` runs `int(r.concurrency)` times, not at
all when that is negative. -/
def Gbench.Run.quotas (r : Gbench) : Option (List Int) :=
  if r.concurrency = 0 then none
  else
    some (Gbench.Run.loop (r.requests / r.concurrency) (int r.concurrency).toNat
      (r.requests % r.concurrency))

/-- The shared counters together with, for every launched runner in launch order, the
atomic updates it has still to perform. -/
structure Sys where
  count : Count
  workers : List (List Op)
  deriving DecidableEq, Repr

/-- The runners started with the quotas `qs`, the first of them being runner number
`w`; `attempts w i` is what runner `w` observes in its iteration `i`. -/
def Gbench.Run.spawn (attempts : Nat → Nat → Attempt) : Nat → List Int → List (List Op)
  | _, [] => []
  | w, q :: qs => runner q (attempts w) :: Gbench.Run.spawn attempts (w + 1) qs

/-- The state in which the loop of `Run` has launched all its runners. -/
def Gbench.Run.launched (r : Gbench) (attempts : Nat → Nat → Attempt) : Option Sys :=
  (Gbench.Run.quotas r).map fun qs => ⟨r.count, Gbench.Run.spawn attempts 0 qs⟩

/-- Runner `w` performs its next atomic update; `none` when there is no runner `w` or it
has nothing left to do. -/
def Sys.step (s : Sys) (w : Nat) : Option Sys :=
  match s.workers.get? w with
  | some (op :: rest) => some ⟨op.apply s.count, s.workers.set w rest⟩
  | _ => none

/-- The runners interleaved as the schedule says: its `j`-th entry names the runner that
performs the `j`-th atomic update of the run. -/
def Sys.exec : List Nat → Sys → Option Sys
  | [], s => some s
  | w :: sched, s =>
    match s.step w with
    | some s1 => Sys.exec sched s1
    | none => none

/-- Every runner has returned (has called `wg.Done()`). -/
def Sys.finished (s : Sys) : Bool := s.workers.all List.isEmpty

/-- The counters at the moment `wg.Wait()` returns in `Run`, the runners having been
interleaved by `sched`; `none` when `Run` panics before, or `sched` is not an execution
of all the runners to their end. -/
def Gbench.Run.wait (r : Gbench) (attempts : Nat → Nat → Attempt) (sched : List Nat) :
    Option Count :=
  match Gbench.Run.launched r attempts with
  | none => none
  | some s =>
    match s.exec sched with
    | some s1 => if s1.finished then some s1.count else none
    | none => none

/-! ## `progress` -/

/-- The percentage one tick of `progress` renders,
`int(successCount+errorCount) * 100 / int(r.requests)`: the sum is a `uint64` sum, the
product and the quotient are `int` operations (the quotient truncates towards zero);
`none` is the run-time panic of a division by zero. -/
def Gbench.progress (r : Gbench) : Option Int :=
  if int r.requests = 0 then none
  else
    some (wrapInt (Int.tdiv
      (wrapInt (int ((r.count.successCount + r.count.errorCount) % 2 ^ 64) * 100))
      (int r.requests)))

/-! ## `String` -/

/-- The integer fields of the report `String` renders; the elapsed time and the
floating-point rate `qps` are left out. -/
structure Report where
  totalRequests : Nat
  completeRequests : Nat
  successRequests : Nat
  errorRequests : Nat
  /-- The value `time.Duration(tpr)`, the mean time per request. -/
  timePerRequest : Int
  totalRecv : Nat
  deriving DecidableEq, Repr

/-- The method `String`: `none` is the run-time panic of the `uint64` division
`r.count.totalRequestUseTime / uint64(r.count.successCount + r.count.errorCount)` on a
zero divisor. -/
def Gbench.String (r : Gbench) : Option Report :=
  if (r.count.successCount + r.count.errorCount) % 2 ^ 64 = 0 then none
  else
    some
      { totalRequests := r.requests
        completeRequests := (r.count.successCount + r.count.errorCount) % 2 ^ 64
        successRequests := r.count.successCount
        errorRequests := r.count.errorCount
        timePerRequest :=
          int (r.count.totalRequestUseTime /
            ((r.count.successCount + r.count.errorCount) % 2 ^ 64))
        totalRecv := r.count.totalRecvData }

/-- The method `Run` from the launch of the runners on: the report it prints once
`wg.Wait()` has returned; `none` when it panics (or `sched` is no complete execution of
the runners). -/
def Gbench.Run (r : Gbench) (attempts : Nat → Nat → Attempt) (sched : List Nat) :
    Option Report :=
  match Gbench.Run.wait r attempts sched with
  | none => none
  | some c => Gbench.String { r with count := c }

/-! ## Counting what a run does -/

/-- The classification of the specification: a request execution is a Success when the
GET returns no error, the status code is 200 and the body is read without error. -/
def Attempt.isSuccess (a : Attempt) : Bool :=
  !a.getErr && a.statusCode == 200 && !a.readErr

/-- The total of `f` over a sequence of updates. -/
def weight (f : Op → Nat) (ops : List Op) : Nat := (ops.map f).sum

/-- The total of `f` over the updates the runners have still to perform. -/
def Sys.pending (f : Op → Nat) (s : Sys) : Nat := (s.workers.map (weight f)).sum

/-- What an update adds to `successCount`. -/
def successWeight : Op → Nat
  | .addSuccessCount => 1
  | _ => 0

/-- What an update adds to `errorCount`. -/
def errorWeight : Op → Nat
  | .addErrorCount => 1
  | _ => 0

/-- What an update adds to `totalRequestUseTime`. -/
def timeWeight : Op → Nat
  | .addRequestTime n => n
  | _ => 0

/-- What an update adds to `totalRecvData`. -/
def recvWeight : Op → Nat
  | .addRecvData n => n
  | _ => 0

/-- The total of `g` over the request executions of the runners started with the quotas
`qs`, the first of them being runner number `w`: runner `w` with quota `q` executes its
attempts `0, ..., q - 1`. -/
def tally (g : Attempt → Nat) (attempts : Nat → Nat → Attempt) : Nat → List Int → Nat
  | _, [] => 0
  | w, q :: qs =>
    ((List.range q.toNat).map fun i => g (attempts w i)).sum + tally g attempts (w + 1) qs

/-- The number of request executions classified as Success. -/
def successes (attempts : Nat → Nat → Attempt) (qs : List Int) : Nat :=
  tally (fun a => if a.isSuccess then 1 else 0) attempts 0 qs

/-- The number of request executions classified as a failure. -/
def failures (attempts : Nat → Nat → Attempt) (qs : List Int) : Nat :=
  tally (fun a => if a.isSuccess then 0 else 1) attempts 0 qs

/-- The sum of the elapsed times, as `runner` converts them, of the Success executions. -/
def successTime (attempts : Nat → Nat → Attempt) (qs : List Int) : Nat :=
  tally (fun a => if a.isSuccess then uint64 a.useTime else 0) attempts 0 qs

/-- The sum of the body lengths of the Success executions. -/
def successData (attempts : Nat → Nat → Attempt) (qs : List Int) : Nat :=
  tally (fun a => if a.isSuccess then uint64 a.dataLen else 0) attempts 0 qs

/-- The counter read by `π` grows by exactly `f op` under every update `op` that does
not carry it past the largest `uint64`. -/
def Tracks (π : Count → Nat) (f : Op → Nat) : Prop :=
  ∀ (op : Op) (c : Count), π c + f op < 2 ^ 64 → π (op.apply c) = π c + f op

/-! ## Machine-integer facts -/

theorem int_of_lt {x : Nat} (h : x < 2 ^ 63) : int x = (x : Int) := by
  have h1 : x % 2 ^ 64 = x := Nat.mod_eq_of_lt (by omega)
  unfold int
  rw [h1, if_pos h]

theorem int_toNat_le (x : Nat) : (int x).toNat ≤ x := by
  have h1 : x % 2 ^ 64 ≤ x := Nat.mod_le _ _
  unfold int
  split <;> omega

theorem int_ne_zero {x : Nat} (h0 : 0 < x) (h : x < 2 ^ 64) : int x ≠ 0 := by
  have h1 : x % 2 ^ 64 = x := Nat.mod_eq_of_lt h
  unfold int
  rw [h1]
  split <;> omega

theorem uint64_of_nat {x : Nat} (h : x < 2 ^ 64) : uint64 (x : Int) = x := by
  unfold uint64
  omega

/-! ## The quotas of `Run` -/

theorem Run_loop_eq_replicate (one : Nat) (h1 : one < 2 ^ 63) :
    ∀ k tail : Nat, (tail ≠ 0 → one + 1 < 2 ^ 63) →
      Gbench.Run.loop one k tail =
        List.replicate (min tail k) ((one : Int) + 1) ++
          List.replicate (k - min tail k) (one : Int) := by
  intro k
  induction k with
  | zero => intro tail _; simp [Gbench.Run.loop]
  | succ k ih =>
    intro tail ht
    cases tail with
    | zero =>
      have := ih 0 (by simp)
      simp [Gbench.Run.loop, this, int_of_lt h1, List.replicate_succ]
    | succ t =>
      have h2 : one + 1 < 2 ^ 63 := ht (by simp)
      have h3 : (one + 1) % 2 ^ 64 = one + 1 := Nat.mod_eq_of_lt (by omega)
      have := ih t (fun _ => h2)
      rw [Gbench.Run.loop, if_pos (by simp), h3, int_of_lt h2, Nat.add_sub_cancel, this]
      simp [List.replicate_succ, Nat.succ_min_succ]

theorem Run_loop_sumToNat_le (one : Nat) :
    ∀ k tail : Nat,
      ((Gbench.Run.loop one k tail).map Int.toNat).sum ≤ k * one + min tail k := by
  intro k
  induction k with
  | zero => intro tail; simp [Gbench.Run.loop]
  | succ k ih =>
    intro tail
    cases tail with
    | zero =>
      have := ih 0
      have h := int_toNat_le one
      rw [Gbench.Run.loop, if_neg (by simp), List.map_cons, List.sum_cons, Nat.succ_mul]
      omega
    | succ t =>
      have := ih t
      have h := int_toNat_le ((one + 1) % 2 ^ 64)
      have h3 : (one + 1) % 2 ^ 64 ≤ one + 1 := Nat.mod_le _ _
      rw [Gbench.Run.loop, if_pos (by simp), List.map_cons, List.sum_cons, Nat.succ_mul,
        Nat.succ_min_succ, Nat.add_sub_cancel]
      omega

theorem quotas_in_range (r : Gbench) (hC : 1 ≤ r.concurrency)
    (hCN : r.concurrency ≤ r.requests) (hN : r.requests < 2 ^ 63) :
    Gbench.Run.quotas r =
      some (List.replicate (r.requests % r.concurrency)
          (((r.requests / r.concurrency : Nat) : Int) + 1) ++
        List.replicate (r.concurrency - r.requests % r.concurrency)
          ((r.requests / r.concurrency : Nat) : Int)) := by
  have hC0 : r.concurrency ≠ 0 := by omega
  have hC63 : r.concurrency < 2 ^ 63 := by omega
  have hlt : r.requests % r.concurrency < r.concurrency := Nat.mod_lt _ (by omega)
  have hdiv : r.requests / r.concurrency ≤ r.requests := Nat.div_le_self _ _
  have hone : r.requests / r.concurrency < 2 ^ 63 := by omega
  have htail : r.requests % r.concurrency ≠ 0 → r.requests / r.concurrency + 1 < 2 ^ 63 := by
    intro ht
    have hdm := Nat.div_add_mod r.requests r.concurrency
    have h2 : 2 ≤ r.concurrency := by
      by_contra hcon
      have : r.concurrency = 1 := by omega
      rw [this, Nat.mod_one] at ht
      exact ht rfl
    have : 2 * (r.requests / r.concurrency) ≤ r.concurrency * (r.requests / r.concurrency) :=
      Nat.mul_le_mul_right _ h2
    have hq : 1 ≤ r.requests / r.concurrency := (Nat.one_le_div_iff (by omega)).2 hCN
    omega
  have hk : (int r.concurrency).toNat = r.concurrency := by
    rw [int_of_lt hC63]; simp
  have hmin : min (r.requests % r.concurrency) r.concurrency = r.requests % r.concurrency :=
    Nat.min_eq_left (le_of_lt hlt)
  simp only [Gbench.Run.quotas, hC0, if_false, hk]
  rw [Run_loop_eq_replicate _ hone _ _ htail, hmin]

/-! ## Interleavings of atomic updates -/

theorem tracks_successCount : Tracks Count.successCount successWeight := by
  intro op c h
  cases op <;> simp only [Op.apply, addSuccessCount, addErrorCount, addRecvData,
    addRequestTime, atomicAddUint64, successWeight, Nat.add_zero] at h ⊢
  exact Nat.mod_eq_of_lt h

theorem tracks_errorCount : Tracks Count.errorCount errorWeight := by
  intro op c h
  cases op <;> simp only [Op.apply, addSuccessCount, addErrorCount, addRecvData,
    addRequestTime, atomicAddUint64, errorWeight, Nat.add_zero] at h ⊢
  exact Nat.mod_eq_of_lt h

theorem tracks_totalRequestUseTime : Tracks Count.totalRequestUseTime timeWeight := by
  intro op c h
  cases op <;> simp only [Op.apply, addSuccessCount, addErrorCount, addRecvData,
    addRequestTime, atomicAddUint64, timeWeight, Nat.add_zero] at h ⊢
  exact Nat.mod_eq_of_lt h

theorem tracks_totalRecvData : Tracks Count.totalRecvData recvWeight := by
  intro op c h
  cases op <;> simp only [Op.apply, addSuccessCount, addErrorCount, addRecvData,
    addRequestTime, atomicAddUint64, recvWeight, Nat.add_zero] at h ⊢
  exact Nat.mod_eq_of_lt h

theorem weight_cons (f : Op → Nat) (op : Op) (ops : List Op) :
    weight f (op :: ops) = f op + weight f ops := by
  simp [weight]

theorem weight_append (f : Op → Nat) (l₁ l₂ : List Op) :
    weight f (l₁ ++ l₂) = weight f l₁ + weight f l₂ := by
  simp [weight]

theorem sum_map_set (g : List Op → Nat) :
    ∀ (ws : List (List Op)) (w : Nat) (old new : List Op), ws.get? w = some old →
      ((ws.set w new).map g).sum + g old = (ws.map g).sum + g new := by
  intro ws
  induction ws with
  | nil => intro w old new h; simp at h
  | cons x xs ih =>
    intro w old new h
    cases w with
    | zero =>
      simp only [List.get?_cons_zero, Option.some.injEq] at h
      subst h
      simp only [List.set_cons_zero, List.map_cons, List.sum_cons]
      omega
    | succ w =>
      simp only [List.get?_cons_succ] at h
      have := ih w old new h
      simp only [List.set_cons_succ, List.map_cons, List.sum_cons]
      omega

theorem Sys.step_spec (f : Op → Nat) {s s1 : Sys} {w : Nat} (h : s.step w = some s1) :
    ∃ op, s1.count = op.apply s.count ∧ s.pending f = f op + s1.pending f := by
  unfold Sys.step at h
  split at h
  · rename_i op rest hw
    simp only [Option.some.injEq] at h
    subst h
    refine ⟨op, rfl, ?_⟩
    have := sum_map_set (weight f) s.workers w (op :: rest) rest hw
    rw [weight_cons] at this
    simp only [Sys.pending]
    omega
  · simp at h

theorem Sys.step_exact {π : Count → Nat} {f : Op → Nat} (hT : Tracks π f) {s s1 : Sys}
    {w : Nat} (h : s.step w = some s1) (hb : π s.count + s.pending f < 2 ^ 64) :
    π s1.count + s1.pending f = π s.count + s.pending f ∧ π s.count ≤ π s1.count := by
  obtain ⟨op, hc, hp⟩ := Sys.step_spec f h
  have := hT op s.count (by omega)
  rw [hc, this]
  omega

theorem Sys.exec_exact {π : Count → Nat} {f : Op → Nat} (hT : Tracks π f) :
    ∀ (sched : List Nat) (s s1 : Sys), s.exec sched = some s1 →
      π s.count + s.pending f < 2 ^ 64 →
      π s1.count + s1.pending f = π s.count + s.pending f := by
  intro sched
  induction sched with
  | nil =>
    intro s s1 h _
    simp only [Sys.exec, Option.some.injEq] at h
    rw [h]
  | cons w sched ih =>
    intro s s1 h hb
    simp only [Sys.exec] at h
    split at h
    · rename_i s2 hs
      have h1 := Sys.step_exact hT hs hb
      have h2 := ih s2 s1 h (by omega)
      omega
    · simp at h

theorem pending_of_finished (f : Op → Nat) {s : Sys} (h : s.finished = true) :
    s.pending f = 0 := by
  obtain ⟨c, ws⟩ := s
  simp only [Sys.finished, Sys.pending] at h ⊢
  induction ws with
  | nil => rfl
  | cons x xs ih =>
    simp only [List.all_cons, Bool.and_eq_true, List.isEmpty_iff] at h
    simp only [List.map_cons, List.sum_cons, ih h.2, h.1]
    rfl

theorem exists_busy :
    ∀ ws : List (List Op), 0 < (ws.map (weight fun _ => 1)).sum →
      ∃ w op rest, ws.get? w = some (op :: rest) := by
  intro ws
  induction ws with
  | nil => intro h; simp at h
  | cons x xs ih =>
    intro h
    cases x with
    | nil =>
      simp only [List.map_cons, List.sum_cons, weight, List.map_nil, List.sum_nil,
        Nat.zero_add] at h
      obtain ⟨w, op, rest, hw⟩ := ih h
      exact ⟨w + 1, op, rest, by simpa using hw⟩
    | cons op rest => exact ⟨0, op, rest, rfl⟩

theorem finished_of_pending_zero {s : Sys} (h : s.pending (fun _ => 1) = 0) :
    s.finished = true := by
  obtain ⟨c, ws⟩ := s
  simp only [Sys.finished, Sys.pending] at h ⊢
  induction ws with
  | nil => rfl
  | cons x xs ih =>
    simp only [List.map_cons, List.sum_cons, Nat.add_eq_zero_iff] at h
    have hx : x = [] := by
      cases x with
      | nil => rfl
      | cons a l => simp [weight] at h
    simp only [List.all_cons, hx, List.isEmpty_nil, Bool.true_and]
    exact ih h.2

theorem Sys.exists_complete :
    ∀ (n : Nat) (s : Sys), s.pending (fun _ => 1) = n →
      ∃ sched s1, s.exec sched = some s1 ∧ s1.finished = true := by
  intro n
  induction n with
  | zero => intro s h; exact ⟨[], s, rfl, finished_of_pending_zero h⟩
  | succ n ih =>
    intro s h
    obtain ⟨w, op, rest, hw⟩ := exists_busy s.workers (by simp only [Sys.pending] at h; omega)
    have hs : s.step w = some ⟨op.apply s.count, s.workers.set w rest⟩ := by
      simp only [Sys.step, hw]
    obtain ⟨op1, _, hp⟩ := Sys.step_spec (fun _ => 1) hs
    have hn : Sys.pending (fun _ => 1) ⟨op.apply s.count, s.workers.set w rest⟩ = n := by omega
    obtain ⟨sched, s1, he, hf⟩ := ih _ hn
    exact ⟨w :: sched, s1, by simp only [Sys.exec, hs, he], hf⟩

/-! ## What the runners of a run perform -/

theorem weight_runnerLoop (f : Op → Nat) (att : Nat → Attempt) :
    ∀ k i : Nat, weight f (runnerLoop att i k) =
      ((List.range' i k).map fun j => weight f (runnerBody (att j))).sum := by
  intro k
  induction k with
  | zero => intro i; simp [runnerLoop, weight]
  | succ k ih =>
    intro i
    rw [runnerLoop, weight_append, ih (i + 1), List.range'_succ, List.map_cons, List.sum_cons]

theorem pending_spawn (f : Op → Nat) (att : Nat → Nat → Attempt) :
    ∀ (qs : List Int) (w : Nat) (c : Count),
      Sys.pending f ⟨c, Gbench.Run.spawn att w qs⟩ =
        tally (fun a => weight f (runnerBody a)) att w qs := by
  intro qs
  induction qs with
  | nil => intro w c; rfl
  | cons q qs ih =>
    intro w c
    have h := ih (w + 1) c
    simp only [Sys.pending] at h
    simp only [Sys.pending, Gbench.Run.spawn, List.map_cons, List.sum_cons, tally, runner,
      weight_runnerLoop, List.range_eq_range', h]

theorem weight_success_runnerBody (a : Attempt) :
    weight successWeight (runnerBody a) = if a.isSuccess then 1 else 0 := by
  obtain ⟨g, st, rd, n, t⟩ := a
  by_cases hst : st = 200 <;> cases g <;> cases rd <;>
    simp [runnerBody, Attempt.isSuccess, weight, successWeight, hst]

theorem weight_error_runnerBody (a : Attempt) :
    weight errorWeight (runnerBody a) = if a.isSuccess then 0 else 1 := by
  obtain ⟨g, st, rd, n, t⟩ := a
  by_cases hst : st = 200 <;> cases g <;> cases rd <;>
    simp [runnerBody, Attempt.isSuccess, weight, errorWeight, hst]

theorem weight_time_runnerBody (a : Attempt) :
    weight timeWeight (runnerBody a) = if a.isSuccess then uint64 a.useTime else 0 := by
  obtain ⟨g, st, rd, n, t⟩ := a
  by_cases hst : st = 200 <;> cases g <;> cases rd <;>
    simp [runnerBody, Attempt.isSuccess, weight, timeWeight, hst]

theorem weight_recv_runnerBody (a : Attempt) :
    weight recvWeight (runnerBody a) = if a.isSuccess then uint64 a.dataLen else 0 := by
  obtain ⟨g, st, rd, n, t⟩ := a
  by_cases hst : st = 200 <;> cases g <;> cases rd <;>
    simp [runnerBody, Attempt.isSuccess, weight, recvWeight, hst]

theorem sum_indicator_add (p : Nat → Bool) :
    ∀ l : List Nat, (l.map fun i => if p i then 1 else 0).sum +
      (l.map fun i => if p i then 0 else 1).sum = l.length := by
  intro l
  induction l with
  | nil => rfl
  | cons x xs ih =>
    simp only [List.map_cons, List.sum_cons, List.length_cons]
    cases p x <;> simp <;> omega

theorem tally_indicator_add (p : Attempt → Bool) (att : Nat → Nat → Attempt) :
    ∀ (qs : List Int) (w : Nat),
      tally (fun a => if p a then 1 else 0) att w qs +
        tally (fun a => if p a then 0 else 1) att w qs = (qs.map Int.toNat).sum := by
  intro qs
  induction qs with
  | nil => intro w; rfl
  | cons q qs ih =>
    intro w
    have h1 := ih (w + 1)
    have h2 := sum_indicator_add (fun i => p (att w i)) (List.range q.toNat)
    simp only [List.length_range] at h2
    simp only [tally, List.map_cons, List.sum_cons]
    omega

theorem tally_zero (g : Attempt → Nat) (att : Nat → Nat → Attempt)
    (h : ∀ w i, g (att w i) = 0) : ∀ (qs : List Int) (w : Nat), tally g att w qs = 0 := by
  intro qs
  induction qs with
  | nil => intro w; rfl
  | cons q qs ih =>
    intro w
    simp only [tally, ih (w + 1), h, Nat.add_zero]
    simp

theorem successes_add_failures (att : Nat → Nat → Attempt) (qs : List Int) :
    successes att qs + failures att qs = (qs.map Int.toNat).sum :=
  tally_indicator_add Attempt.isSuccess att qs 0

theorem quotas_total_le (r : Gbench) (hC : r.concurrency ≠ 0) :
    ∃ qs, Gbench.Run.quotas r = some qs ∧ (qs.map Int.toNat).sum ≤ r.requests := by
  refine ⟨Gbench.Run.loop (r.requests / r.concurrency) (int r.concurrency).toNat
    (r.requests % r.concurrency), by simp only [Gbench.Run.quotas, hC, if_false], ?_⟩
  have h1 := Run_loop_sumToNat_le (r.requests / r.concurrency) (int r.concurrency).toNat
    (r.requests % r.concurrency)
  have h2 := int_toNat_le r.concurrency
  have h3 : (int r.concurrency).toNat * (r.requests / r.concurrency) ≤
      r.concurrency * (r.requests / r.concurrency) := Nat.mul_le_mul_right _ h2
  have h4 := Nat.div_add_mod r.requests r.concurrency
  have h5 : min (r.requests % r.concurrency) (int r.concurrency).toNat ≤
      r.requests % r.concurrency := Nat.min_le_left _ _
  omega

/-- The invariant of a run: at every point of every interleaving, each counter plus what
the runners have still to add to it is the total the run adds to it. -/
theorem launched_invariant (r : Gbench) (att : Nat → Nat → Attempt)
    (hz : r.count = Count.zero) (hN : r.requests < 2 ^ 64) (qs : List Int)
    (hq : Gbench.Run.quotas r = some qs) :
    Gbench.Run.launched r att = some ⟨r.count, Gbench.Run.spawn att 0 qs⟩ ∧
    successes att qs + failures att qs = (qs.map Int.toNat).sum ∧
    (qs.map Int.toNat).sum ≤ r.requests ∧
    ∀ (sched : List Nat) (s : Sys),
      Sys.exec sched ⟨r.count, Gbench.Run.spawn att 0 qs⟩ = some s →
        s.count.successCount + s.pending successWeight = successes att qs ∧
        s.count.errorCount + s.pending errorWeight = failures att qs ∧
        (successTime att qs < 2 ^ 64 →
          s.count.totalRequestUseTime + s.pending timeWeight = successTime att qs) ∧
        (successData att qs < 2 ^ 64 →
          s.count.totalRecvData + s.pending recvWeight = successData att qs) := by
  have hC : r.concurrency ≠ 0 := by
    intro h0
    simp [Gbench.Run.quotas, h0] at hq
  obtain ⟨qs1, hq1, hle⟩ := quotas_total_le r hC
  rw [hq] at hq1
  simp only [Option.some.injEq] at hq1
  subst hq1
  have hsf := successes_add_failures att qs
  refine ⟨by simp only [Gbench.Run.launched, hq, Option.map_some'], hsf, hle, ?_⟩
  intro sched s he
  have pS : Sys.pending successWeight ⟨r.count, Gbench.Run.spawn att 0 qs⟩ = successes att qs := by
    rw [pending_spawn]; simp only [weight_success_runnerBody]; rfl
  have pE : Sys.pending errorWeight ⟨r.count, Gbench.Run.spawn att 0 qs⟩ = failures att qs := by
    rw [pending_spawn]; simp only [weight_error_runnerBody]; rfl
  have pT : Sys.pending timeWeight ⟨r.count, Gbench.Run.spawn att 0 qs⟩ = successTime att qs := by
    rw [pending_spawn]; simp only [weight_time_runnerBody]; rfl
  have pR : Sys.pending recvWeight ⟨r.count, Gbench.Run.spawn att 0 qs⟩ = successData att qs := by
    rw [pending_spawn]; simp only [weight_recv_runnerBody]; rfl
  have z1 : r.count.successCount = 0 := by rw [hz]; rfl
  have z2 : r.count.errorCount = 0 := by rw [hz]; rfl
  have z3 : r.count.totalRequestUseTime = 0 := by rw [hz]; rfl
  have z4 : r.count.totalRecvData = 0 := by rw [hz]; rfl
  refine ⟨?_, ?_, ?_, ?_⟩
  · have := Sys.exec_exact tracks_successCount sched _ s he (by simp only [pS, z1]; omega)
    simp only [pS, z1] at this
    omega
  · have := Sys.exec_exact tracks_errorCount sched _ s he (by simp only [pE, z2]; omega)
    simp only [pE, z2] at this
    omega
  · intro hb
    have := Sys.exec_exact tracks_totalRequestUseTime sched _ s he (by simp only [pT, z3]; omega)
    simp only [pT, z3] at this
    omega
  · intro hb
    have := Sys.exec_exact tracks_totalRecvData sched _ s he (by simp only [pR, z4]; omega)
    simp only [pR, z4] at this
    omega

theorem Run_loop_get (one : Nat) (h1 : one < 2 ^ 63) :
    ∀ k tail i : Nat, (tail ≠ 0 → one + 1 < 2 ^ 63) → i < k →
      (Gbench.Run.loop one k tail).get? i =
        some (if i < tail then (one : Int) + 1 else (one : Int)) := by
  intro k
  induction k with
  | zero => intro tail i _ hi; omega
  | succ k ih =>
    intro tail i ht hi
    cases tail with
    | zero =>
      rw [Gbench.Run.loop, if_neg (by simp), int_of_lt h1]
      cases i with
      | zero => simp
      | succ j =>
        rw [List.get?_cons_succ, ih 0 j (by simp) (by omega)]
        simp
    | succ t =>
      have h2 : one + 1 < 2 ^ 63 := ht (by simp)
      have h3 : (one + 1) % 2 ^ 64 = one + 1 := Nat.mod_eq_of_lt (by omega)
      rw [Gbench.Run.loop, if_pos (by simp), h3, int_of_lt h2, Nat.add_sub_cancel]
      cases i with
      | zero => simp
      | succ j =>
        rw [List.get?_cons_succ, ih t j (fun _ => h2) (by omega)]
        simp

theorem length_spawn (att : Nat → Nat → Attempt) :
    ∀ (qs : List Int) (w : Nat), (Gbench.Run.spawn att w qs).length = qs.length := by
  intro qs
  induction qs with
  | nil => intro w; rfl
  | cons q qs ih => intro w; simp only [Gbench.Run.spawn, List.length_cons, ih (w + 1)]

theorem in_range_facts (r : Gbench) (hC : 1 ≤ r.concurrency)
    (hCN : r.concurrency ≤ r.requests) (hN : r.requests < 2 ^ 63) :
    r.requests / r.concurrency < 2 ^ 63 ∧
    (r.requests % r.concurrency ≠ 0 → r.requests / r.concurrency + 1 < 2 ^ 63) ∧
    (int r.concurrency).toNat = r.concurrency ∧
    r.requests % r.concurrency < r.concurrency := by
  have hC63 : r.concurrency < 2 ^ 63 := by omega
  have hlt : r.requests % r.concurrency < r.concurrency := Nat.mod_lt _ (by omega)
  have hdiv : r.requests / r.concurrency ≤ r.requests := Nat.div_le_self _ _
  refine ⟨by omega, ?_, by rw [int_of_lt hC63]; simp, hlt⟩
  intro ht
  have h2 : 2 ≤ r.concurrency := by
    by_contra hcon
    have : r.concurrency = 1 := by omega
    rw [this, Nat.mod_one] at ht
    exact ht rfl
  have : 2 * (r.requests / r.concurrency) ≤ r.concurrency * (r.requests / r.concurrency) :=
    Nat.mul_le_mul_right _ h2
  have hdm := Nat.div_add_mod r.requests r.concurrency
  have hq : 1 ≤ r.requests / r.concurrency := (Nat.one_le_div_iff (by omega)).2 hCN
  omega

theorem sum_two_replicate (m k q : Nat) (hm : m ≤ k) :
    (List.replicate m ((q : Int) + 1) ++ List.replicate (k - m) (q : Int)).sum =
      ((k * q + m : Nat) : Int) ∧
    ((List.replicate m ((q : Int) + 1) ++ List.replicate (k - m) (q : Int)).map Int.toNat).sum =
      k * q + m ∧
    ∀ x ∈ List.replicate m ((q : Int) + 1) ++ List.replicate (k - m) (q : Int), 0 ≤ x := by
  obtain ⟨d, rfl⟩ : ∃ d, k = m + d := ⟨k - m, by omega⟩
  rw [Nat.add_sub_cancel_left]
  refine ⟨?_, ?_, ?_⟩
  · simp only [List.sum_append, List.sum_replicate, nsmul_eq_mul]
    push_cast
    ring
  · have e1 : ((q : Int) + 1).toNat = q + 1 := by omega
    have e2 : (q : Int).toNat = q := by omega
    simp only [List.map_append, List.map_replicate, List.sum_append, List.sum_replicate,
      smul_eq_mul, e1, e2]
    ring
  · intro x hx
    simp only [List.mem_append, List.mem_replicate] at hx
    rcases hx with ⟨_, rfl⟩ | ⟨_, rfl⟩ <;> omega

theorem quotas_sum_in_range (r : Gbench) (hC : 1 ≤ r.concurrency)
    (hCN : r.concurrency ≤ r.requests) (hN : r.requests < 2 ^ 63) :
    ∃ qs, Gbench.Run.quotas r = some qs ∧ qs.length = r.concurrency ∧
      (∀ q ∈ qs, 0 ≤ q) ∧ qs.sum = (r.requests : Int) ∧
      (qs.map Int.toNat).sum = r.requests := by
  have hlt : r.requests % r.concurrency < r.concurrency := Nat.mod_lt _ (by omega)
  have hdm := Nat.div_add_mod r.requests r.concurrency
  obtain ⟨h1, h2, h3⟩ := sum_two_replicate (r.requests % r.concurrency) r.concurrency
    (r.requests / r.concurrency) (le_of_lt hlt)
  rw [hdm] at h1 h2
  refine ⟨List.replicate (r.requests % r.concurrency)
      (((r.requests / r.concurrency : Nat) : Int) + 1) ++
    List.replicate (r.concurrency - r.requests % r.concurrency)
      ((r.requests / r.concurrency : Nat) : Int), quotas_in_range r hC hCN hN, ?_, h3, h1, h2⟩
  simp only [List.length_append, List.length_replicate]
  omega

theorem wait_counts (r : Gbench) (att : Nat → Nat → Attempt) (hz : r.count = Count.zero)
    (hN : r.requests < 2 ^ 64) (qs : List Int) (hq : Gbench.Run.quotas r = some qs) :
    (∃ sched c, Gbench.Run.wait r att sched = some c) ∧
    ∀ sched c, Gbench.Run.wait r att sched = some c →
      c.successCount = successes att qs ∧ c.errorCount = failures att qs ∧
      (successTime att qs < 2 ^ 64 → c.totalRequestUseTime = successTime att qs) ∧
      (successData att qs < 2 ^ 64 → c.totalRecvData = successData att qs) := by
  obtain ⟨hl, _, _, hinv⟩ := launched_invariant r att hz hN qs hq
  constructor
  · obtain ⟨sched, s1, he, hf⟩ := Sys.exists_complete _ ⟨r.count, Gbench.Run.spawn att 0 qs⟩ rfl
    exact ⟨sched, s1.count, by simp only [Gbench.Run.wait, hl, he, hf, if_true]⟩
  · intro sched c hw
    simp only [Gbench.Run.wait, hl] at hw
    split at hw
    · rename_i s1 he
      split at hw
      · rename_i hf
        simp only [Option.some.injEq] at hw
        subst hw
        obtain ⟨i1, i2, i3, i4⟩ := hinv sched s1 he
        rw [pending_of_finished _ hf] at i1 i2
        refine ⟨i1, i2, ?_, ?_⟩
        · intro hb
          have := i3 hb
          rw [pending_of_finished _ hf] at this
          exact this
        · intro hb
          have := i4 hb
          rw [pending_of_finished _ hf] at this
          exact this
      · simp at hw
    · simp at hw

theorem isSuccess_eq_false_iff (a : Attempt) :
    a.isSuccess = false ↔ (a.getErr = true ∨ a.statusCode ≠ 200 ∨ a.readErr = true) := by
  obtain ⟨g, st, rd, n, t⟩ := a
  by_cases hst : st = 200 <;> cases g <;> cases rd <;> simp [Attempt.isSuccess, hst]

theorem isSuccess_eq_true_iff (a : Attempt) :
    a.isSuccess = true ↔ (a.getErr = false ∧ a.statusCode = 200 ∧ a.readErr = false) := by
  obtain ⟨g, st, rd, n, t⟩ := a
  by_cases hst : st = 200 <;> cases g <;> cases rd <;> simp [Attempt.isSuccess, hst]

theorem runnerLoop_shift (att : Nat → Attempt) :
    ∀ k i : Nat, runnerLoop att (i + 1) k = runnerLoop (fun j => att (j + 1)) i k := by
  intro k
  induction k with
  | zero => intro i; rfl
  | succ k ih => intro i; rw [runnerLoop, runnerLoop, ih (i + 1)]

theorem runner_pos (att : Nat → Attempt) (q : Int) (hq : 0 < q) :
    runner q att = runnerBody (att 0) ++ runner (q - 1) (fun i => att (i + 1)) := by
  have h : q.toNat = (q - 1).toNat + 1 := by omega
  rw [runner, runner, h, runnerLoop, runnerLoop_shift]

theorem runnerBody_failure (a : Attempt)
    (hf : a.getErr = true ∨ a.statusCode ≠ 200 ∨ a.readErr = true) :
    runnerBody a = [Op.addErrorCount] := by
  obtain ⟨g, st, rd, n, t⟩ := a
  by_cases hst : st = 200 <;> cases g <;> cases rd <;> simp_all [runnerBody]

theorem runnerBody_success (a : Attempt)
    (hs : a.getErr = false ∧ a.statusCode = 200 ∧ a.readErr = false) :
    runnerBody a = [Op.addRequestTime (uint64 a.useTime), Op.addRecvData (uint64 a.dataLen),
      Op.addSuccessCount] := by
  obtain ⟨g, st, rd, n, t⟩ := a
  obtain ⟨h1, h2, h3⟩ := hs
  simp only at h1 h2 h3
  subst h1 h2 h3
  simp [runnerBody]

theorem wrapInt_of_nat {x : Nat} (h : x < 2 ^ 63) : wrapInt (x : Int) = (x : Int) := by
  rw [wrapInt, uint64_of_nat (by omega), int_of_lt h]

theorem String_eq_none_iff (r : Gbench) :
    Gbench.String r = none ↔ (r.count.successCount + r.count.errorCount) % 2 ^ 64 = 0 := by
  unfold Gbench.String
  split <;> simp_all

theorem New_ok_iff (url : String) (concurrency requests : Nat) (r : Gbench) :
    New url concurrency requests = .ok r ↔
      (url ≠ "" ∧ requests ≠ 0 ∧ concurrency ≤ requests ∧
        r = ⟨url, concurrency, requests, Count.zero⟩) := by
  have hurl : url.utf8ByteSize = 0 ↔ url = "" := by
    obtain ⟨cs⟩ := url
    rw [String.utf8ByteSize_mk, String.utf8Len_eq_zero]
    constructor
    · intro h; rw [h]
    · intro h; exact congrArg String.data h
  unfold New
  by_cases h1 : url.utf8ByteSize = 0
  · rw [if_pos h1]
    have := hurl.1 h1
    simp [this]
  · rw [if_neg h1]
    have hne : url ≠ "" := fun h => h1 (hurl.2 h)
    by_cases h2 : requests ≤ 0
    · rw [if_pos h2]
      have : requests = 0 := by omega
      simp [this]
    · rw [if_neg h2]
      by_cases h3 : requests > 0 ∧ requests < concurrency
      · rw [if_pos h3]
        have : ¬ concurrency ≤ requests := by omega
        simp [this]
      · rw [if_neg h3]
        have h4 : concurrency ≤ requests := by omega
        have h5 : requests ≠ 0 := by omega
        simp only [Except.ok.injEq, ne_eq, hne, not_false_eq_true, h5, h4, true_and]
        exact eq_comm

theorem New_error_iff (url : String) (concurrency requests : Nat) :
    (∃ msg, New url concurrency requests = .error msg) ↔
      (url = "" ∨ requests = 0 ∨ requests < concurrency) := by
  constructor
  · rintro ⟨msg, h⟩
    by_contra hcon
    have hok := (New_ok_iff url concurrency requests ⟨url, concurrency, requests, Count.zero⟩).2
      ⟨by tauto, by tauto, by omega, rfl⟩
    rw [h] at hok
    exact Except.noConfusion hok
  · intro h
    cases hn : New url concurrency requests with
    | error msg => exact ⟨msg, rfl⟩
    | ok r =>
      obtain ⟨h1, h2, h3, _⟩ := (New_ok_iff url concurrency requests r).1 hn
      rcases h with h | h | h
      · exact absurd h h1
      · exact absurd h h2
      · omega

theorem run_pending_bounds (r : Gbench) (att : Nat → Nat → Attempt)
    (hz : r.count = Count.zero) (hC : 1 ≤ r.concurrency) (hN : r.requests < 2 ^ 64)
    (sys : Sys) (hl : Gbench.Run.launched r att = some sys) (sched : List Nat) (s : Sys)
    (he : sys.exec sched = some s) (w : Nat) (op : Op) (rest : List Op)
    (hw : s.workers.get? w = some (op :: rest)) :
    s.step w = some ⟨op.apply s.count, s.workers.set w rest⟩ ∧
    s.count.successCount + successWeight op < 2 ^ 64 ∧
    s.count.errorCount + errorWeight op < 2 ^ 64 := by
  obtain ⟨qs, hq, _⟩ := quotas_total_le r (by omega)
  obtain ⟨hl1, hsf, hle, hinv⟩ := launched_invariant r att hz hN qs hq
  rw [hl1] at hl
  simp only [Option.some.injEq] at hl
  subst hl
  obtain ⟨i1, i2, _, _⟩ := hinv sched s he
  have p1 := sum_map_set (weight successWeight) s.workers w (op :: rest) rest hw
  have p2 := sum_map_set (weight errorWeight) s.workers w (op :: rest) rest hw
  rw [weight_cons] at p1 p2
  simp only [Sys.pending] at i1 i2
  refine ⟨by simp only [Sys.step, hw], by omega, by omega⟩

theorem runnerLoop_const (a : Attempt) :
    ∀ k i : Nat, runnerLoop (fun _ => a) i k = runnerLoop (fun _ => a) 0 k := by
  intro k
  induction k with
  | zero => intro i; rfl
  | succ k ih => intro i; rw [runnerLoop, runnerLoop, ih (i + 1), ih (0 + 1)]

theorem Sys.step_head (c : Count) (op : Op) (l : List Op) :
    Sys.step ⟨c, [op :: l]⟩ 0 = some ⟨op.apply c, [l]⟩ := rfl

/-- A lone runner run from its start: after its first `k` iterations, all of them
successful, `totalRequestUseTime` holds `k` times the elapsed time, modulo `2 ^ 64`. -/
theorem exec_lone_runner (a : Attempt)
    (hs : a.getErr = false ∧ a.statusCode = 200 ∧ a.readErr = false) :
    ∀ (k n : Nat) (c : Count), c.totalRequestUseTime < 2 ^ 64 →
      ∃ c1, Sys.exec (List.replicate (3 * k) 0) ⟨c, [runnerLoop (fun _ => a) 0 (n + k)]⟩ =
          some ⟨c1, [runnerLoop (fun _ => a) 0 n]⟩ ∧
        c1.totalRequestUseTime = (c.totalRequestUseTime + k * uint64 a.useTime) % 2 ^ 64 := by
  intro k
  induction k with
  | zero =>
    intro n c hc
    exact ⟨c, rfl, by rw [Nat.zero_mul, Nat.add_zero, Nat.mod_eq_of_lt hc]⟩
  | succ k ih =>
    intro n c hc
    have hlt : (c.totalRequestUseTime + uint64 a.useTime) % 2 ^ 64 < 2 ^ 64 :=
      Nat.mod_lt _ (by decide)
    obtain ⟨c1, he, ht⟩ := ih n
      (Op.addSuccessCount.apply ((Op.addRecvData (uint64 a.dataLen)).apply
        ((Op.addRequestTime (uint64 a.useTime)).apply c))) hlt
    refine ⟨c1, ?_, ?_⟩
    · have h3 : 3 * (k + 1) = 3 * k + 1 + 1 + 1 := by ring
      rw [h3, List.replicate_succ, List.replicate_succ, List.replicate_succ,
        show n + (k + 1) = (n + k) + 1 from rfl, runnerLoop, runnerBody_success a hs,
        runnerLoop_const a (n + k) (0 + 1)]
      simp only [List.cons_append, List.nil_append, Sys.exec, Sys.step_head]
      exact he
    · rw [ht]
      show ((c.totalRequestUseTime + uint64 a.useTime) % 2 ^ 64 + k * uint64 a.useTime) % 2 ^ 64 =
        (c.totalRequestUseTime + (k + 1) * uint64 a.useTime) % 2 ^ 64
      rw [Nat.add_mod, Nat.mod_mod, ← Nat.add_mod]
      congr 1
      ring

theorem Sys.exec_append :
    ∀ (l₁ l₂ : List Nat) (s : Sys),
      Sys.exec (l₁ ++ l₂) s = (Sys.exec l₁ s).bind (Sys.exec l₂) := by
  intro l₁
  induction l₁ with
  | nil => intro l₂ s; rfl
  | cons w l ih =>
    intro l₂ s
    simp only [List.cons_append, Sys.exec]
    cases s.step w with
    | none => rfl
    | some s1 => exact ih l₂ s1

/-- A lone runner whose requests all succeed: where it stands after `k` iterations, and
where one atomic update later, the `addRequestTime` of iteration `k + 1`. -/
theorem exec_lone_runner_next (a : Attempt)
    (hs : a.getErr = false ∧ a.statusCode = 200 ∧ a.readErr = false) (k n : Nat) :
    (Option.map (fun s => s.count.totalRequestUseTime)
      (Sys.exec (List.replicate (3 * k) 0)
        ⟨Count.zero, [runnerLoop (fun _ => a) 0 (n + 1 + k)]⟩) =
      some ((k * uint64 a.useTime) % 2 ^ 64)) ∧
    (Option.map (fun s => s.count.totalRequestUseTime)
      (Sys.exec (List.replicate (3 * k) 0 ++ [0])
        ⟨Count.zero, [runnerLoop (fun _ => a) 0 (n + 1 + k)]⟩) =
      some (((k * uint64 a.useTime) % 2 ^ 64 + uint64 a.useTime) % 2 ^ 64)) := by
  obtain ⟨c1, he, ht⟩ := exec_lone_runner a hs k (n + 1) Count.zero (by decide)
  have hz : Count.zero.totalRequestUseTime = 0 := rfl
  rw [hz, Nat.zero_add] at ht
  constructor
  · rw [he, Option.map_some', ht]
  · rw [Sys.exec_append, he, Option.some_bind, runnerLoop, runnerBody_success a hs]
    simp only [List.cons_append, Sys.exec, Sys.step_head, Option.map_some', Op.apply,
      addRequestTime, atomicAddUint64, ht]

/-! ## The claims -/

/-- C1, counterexample: `New` accepts concurrency `2 ^ 63` with `2 ^ 63` requests, and
for that configuration `int(r.concurrency)` is negative, so `Run` launches no runner at
all: the quotas it hands out sum to `0`, not to the request count. -/
theorem quotas_sum_counterexample :
    New "http://a" (2 ^ 63) (2 ^ 63) = .ok ⟨"http://a", 2 ^ 63, 2 ^ 63, Count.zero⟩ ∧
    Gbench.Run.quotas ⟨"http://a", 2 ^ 63, 2 ^ 63, Count.zero⟩ = some [] ∧
    (Gbench.Run.quotas ⟨"http://a", 2 ^ 63, 2 ^ 63, Count.zero⟩).map List.sum ≠
      some (((2 ^ 63 : Nat) : Int)) := by
  refine ⟨rfl, by decide, by decide⟩

/-- C1, amended: for every concurrency `C` and request count `N` with
`N ≥ C ≥ 1` and `N < 2 ^ 63`, `Run` computes its quotas without fault, launches one
runner per quota, and the quotas sum to exactly `N`. -/
theorem quotas_sum_eq_requests (r : Gbench) (att : Nat → Nat → Attempt)
    (hC : 1 ≤ r.concurrency) (hCN : r.concurrency ≤ r.requests) (hN : r.requests < 2 ^ 63) :
    ∃ qs sys, Gbench.Run.quotas r = some qs ∧ Gbench.Run.launched r att = some sys ∧
      sys.workers.length = qs.length ∧ qs.sum = (r.requests : Int) := by
  obtain ⟨qs, hq, _, _, hsum, _⟩ := quotas_sum_in_range r hC hCN hN
  refine ⟨qs, ⟨r.count, Gbench.Run.spawn att 0 qs⟩, hq, ?_, length_spawn att qs 0, hsum⟩
  simp only [Gbench.Run.launched, hq, Option.map_some']

/-- C1, witness: concurrency 4 and 10 requests. -/
theorem quotas_sum_eq_requests_witness :
    ∃ qs sys, Gbench.Run.quotas ⟨"http://a", 4, 10, Count.zero⟩ = some qs ∧
      Gbench.Run.launched ⟨"http://a", 4, 10, Count.zero⟩
        (fun _ _ => ⟨false, 200, false, 10, 7⟩) = some sys ∧
      sys.workers.length = qs.length ∧ qs.sum = ((10 : Nat) : Int) :=
  quotas_sum_eq_requests ⟨"http://a", 4, 10, Count.zero⟩ (fun _ _ => ⟨false, 200, false, 10, 7⟩)
    (by decide) (by decide) (by decide)

/-- C2, counterexample: with concurrency 1 and `2 ^ 63` requests, which `New` accepts,
the one runner launched is handed `int(2 ^ 63) = -2 ^ 63`, not `⌊N/C⌋ = 2 ^ 63`. -/
theorem quota_distribution_counterexample :
    New "http://a" 1 (2 ^ 63) = .ok ⟨"http://a", 1, 2 ^ 63, Count.zero⟩ ∧
    Gbench.Run.quotas ⟨"http://a", 1, 2 ^ 63, Count.zero⟩ = some [-(2 ^ 63)] ∧
    (Gbench.Run.quotas ⟨"http://a", 1, 2 ^ 63, Count.zero⟩).bind (fun qs => qs.get? 0) ≠
      some (if 0 < 2 ^ 63 % 1 then ((2 ^ 63 / 1 : Nat) : Int) + 1
        else ((2 ^ 63 / 1 : Nat) : Int)) := by
  refine ⟨rfl, by decide, by decide⟩

/-- C2, amended: for every `C` and `N` with `N ≥ C ≥ 1` and `N < 2 ^ 63`, `Run` launches
exactly `C` runners and the `i`-th launched (from 0) is handed `⌊N/C⌋ + 1` when
`i < N mod C` and `⌊N/C⌋` otherwise, so that exactly `N mod C` runners, the first ones,
get the larger value; for `C = 4`, `N = 10` the quotas in launch order are 3, 3, 2, 2. -/
theorem quota_distribution :
    (∀ (r : Gbench) (att : Nat → Nat → Attempt), 1 ≤ r.concurrency →
      r.concurrency ≤ r.requests → r.requests < 2 ^ 63 →
      ∃ qs sys, Gbench.Run.quotas r = some qs ∧ Gbench.Run.launched r att = some sys ∧
        sys.workers.length = r.concurrency ∧ qs.length = r.concurrency ∧
        (∀ i, i < r.concurrency → qs.get? i =
          some (if i < r.requests % r.concurrency
            then ((r.requests / r.concurrency : Nat) : Int) + 1
            else ((r.requests / r.concurrency : Nat) : Int))) ∧
        qs = List.replicate (r.requests % r.concurrency)
              (((r.requests / r.concurrency : Nat) : Int) + 1) ++
            List.replicate (r.concurrency - r.requests % r.concurrency)
              ((r.requests / r.concurrency : Nat) : Int) ∧
        qs.count (((r.requests / r.concurrency : Nat) : Int) + 1) =
          r.requests % r.concurrency) ∧
    (∀ (url : String) (c : Count), Gbench.Run.quotas ⟨url, 4, 10, c⟩ = some [3, 3, 2, 2]) := by
  constructor
  · intro r att hC hCN hN
    obtain ⟨h1, h2, h3, h4⟩ := in_range_facts r hC hCN hN
    have hq := quotas_in_range r hC hCN hN
    have hlen : (List.replicate (r.requests % r.concurrency)
          (((r.requests / r.concurrency : Nat) : Int) + 1) ++
        List.replicate (r.concurrency - r.requests % r.concurrency)
          ((r.requests / r.concurrency : Nat) : Int)).length = r.concurrency := by
      simp only [List.length_append, List.length_replicate]
      omega
    obtain ⟨qs, hqs⟩ : ∃ qs, qs = List.replicate (r.requests % r.concurrency)
          (((r.requests / r.concurrency : Nat) : Int) + 1) ++
        List.replicate (r.concurrency - r.requests % r.concurrency)
          ((r.requests / r.concurrency : Nat) : Int) := ⟨_, rfl⟩
    rw [← hqs] at hq hlen
    refine ⟨qs, ⟨r.count, Gbench.Run.spawn att 0 qs⟩, hq, ?_, ?_, hlen, ?_, hqs, ?_⟩
    · simp only [Gbench.Run.launched, hq, Option.map_some']
    · rw [length_spawn]; exact hlen
    · intro i hi
      have hC0 : r.concurrency ≠ 0 := by omega
      have hq2 : Gbench.Run.quotas r = some (Gbench.Run.loop (r.requests / r.concurrency)
          (int r.concurrency).toNat (r.requests % r.concurrency)) := by
        simp only [Gbench.Run.quotas, hC0, if_false]
      rw [hq] at hq2
      simp only [Option.some.injEq] at hq2
      rw [hq2, h3]
      exact Run_loop_get _ h1 _ _ i h2 hi
    · rw [hqs]
      simp [List.count_append, List.count_replicate]
  · intro url c
    simp only [Gbench.Run.quotas]
    decide

/-- C2, witness: concurrency 3 and 8 requests. -/
theorem quota_distribution_witness :
    ∃ qs sys, Gbench.Run.quotas ⟨"http://a", 3, 8, Count.zero⟩ = some qs ∧
        Gbench.Run.launched ⟨"http://a", 3, 8, Count.zero⟩
          (fun _ _ => ⟨false, 200, false, 10, 7⟩) = some sys ∧
        sys.workers.length = 3 ∧ qs.length = 3 ∧
        (∀ i, i < 3 → qs.get? i =
          some (if i < 8 % 3 then ((8 / 3 : Nat) : Int) + 1 else ((8 / 3 : Nat) : Int))) ∧
        qs = List.replicate (8 % 3) (((8 / 3 : Nat) : Int) + 1) ++
            List.replicate (3 - 8 % 3) ((8 / 3 : Nat) : Int) ∧
        qs.count (((8 / 3 : Nat) : Int) + 1) = 8 % 3 :=
  quota_distribution.1 ⟨"http://a", 3, 8, Count.zero⟩ (fun _ _ => ⟨false, 200, false, 10, 7⟩)
    (by decide) (by decide) (by decide)

/-- C3, counterexample: with concurrency 1 and `2 ^ 63 + 5` requests, which `New`
accepts, the one runner is handed a negative quota and performs no request, so the run
completes at once with all counters at zero: `successCount + errorCount` is 0, not the
request count. -/
theorem completed_counterexample :
    New "http://a" 1 (2 ^ 63 + 5) = .ok ⟨"http://a", 1, 2 ^ 63 + 5, Count.zero⟩ ∧
    Gbench.Run.wait ⟨"http://a", 1, 2 ^ 63 + 5, Count.zero⟩
      (fun _ _ => ⟨false, 200, false, 10, 7⟩) [] = some ⟨0, 0, 0, 0⟩ ∧
    (0 : Nat) + 0 ≠ 2 ^ 63 + 5 := by
  refine ⟨rfl, by decide, by decide⟩

/-- C3, amended: for every configuration with `N ≥ C ≥ 1` and `N < 2 ^ 63` and every
assignment of outcomes to the requests, the run started from zeroed counters has
executions in which every runner finishes, and after each of them
`successCount + errorCount` is exactly `N`; with `C = 1`, `N = 5` and all requests
succeeding, `successCount = 5` and `errorCount = 0`. -/
theorem completed_eq_requests :
    (∀ (r : Gbench) (att : Nat → Nat → Attempt), r.count = Count.zero →
      1 ≤ r.concurrency → r.concurrency ≤ r.requests → r.requests < 2 ^ 63 →
      (∃ sched c, Gbench.Run.wait r att sched = some c) ∧
      ∀ sched c, Gbench.Run.wait r att sched = some c →
        c.successCount + c.errorCount = r.requests) ∧
    (∀ (url : String) (att : Nat → Nat → Attempt),
      (∀ w i, (att w i).getErr = false ∧ (att w i).statusCode = 200 ∧
        (att w i).readErr = false) →
      (∃ sched c, Gbench.Run.wait ⟨url, 1, 5, Count.zero⟩ att sched = some c) ∧
      ∀ sched c, Gbench.Run.wait ⟨url, 1, 5, Count.zero⟩ att sched = some c →
        c.successCount = 5 ∧ c.errorCount = 0) := by
  constructor
  · intro r att hz hC hCN hN
    obtain ⟨qs, hq, _, _, _, hsum⟩ := quotas_sum_in_range r hC hCN hN
    obtain ⟨hex, hall⟩ := wait_counts r att hz (by omega) qs hq
    refine ⟨hex, ?_⟩
    intro sched c hw
    obtain ⟨h1, h2, _, _⟩ := hall sched c hw
    rw [h1, h2, successes_add_failures, hsum]
  · intro url att hs
    have hq : Gbench.Run.quotas ⟨url, 1, 5, Count.zero⟩ = some [5] := by
      simp only [Gbench.Run.quotas]
      decide
    obtain ⟨hex, hall⟩ := wait_counts ⟨url, 1, 5, Count.zero⟩ att rfl
      (show (5 : Nat) < 2 ^ 64 by decide) [5] hq
    refine ⟨hex, ?_⟩
    intro sched c hw
    obtain ⟨h1, h2, _, _⟩ := hall sched c hw
    have hf : failures att [5] = 0 := by
      apply tally_zero
      intro w i
      rw [if_pos ((isSuccess_eq_true_iff _).2 (hs w i))]
    have hsf := successes_add_failures att [5]
    rw [hf] at hsf
    rw [h1, h2, hf]
    refine ⟨?_, rfl⟩
    rw [Nat.add_zero] at hsf
    rw [hsf]
    rfl

/-- C3, witness: concurrency 2 and 3 requests, every request answered with status 500. -/
theorem completed_eq_requests_witness :
    (∃ sched c, Gbench.Run.wait ⟨"http://a", 2, 3, Count.zero⟩
      (fun _ _ => ⟨false, 500, false, 0, 0⟩) sched = some c) ∧
    ∀ sched c, Gbench.Run.wait ⟨"http://a", 2, 3, Count.zero⟩
      (fun _ _ => ⟨false, 500, false, 0, 0⟩) sched = some c →
        c.successCount + c.errorCount = 3 :=
  completed_eq_requests.1 ⟨"http://a", 2, 3, Count.zero⟩ (fun _ _ => ⟨false, 500, false, 0, 0⟩)
    rfl (by decide) (by decide) (by decide)

/-- C4, the code at the failing input: on the `Gbench` that `New "http://a" 1 1` returns,
whose counters are all zero (the state an interrupt finds before the first request has
completed), `String` divides `totalRequestUseTime` by `uint64(0)`: it panics and reports
no mean time at all. -/
theorem String_panics_on_zero_completed :
    New "http://a" 1 1 = .ok ⟨"http://a", 1, 1, Count.zero⟩ ∧
    Gbench.String ⟨"http://a", 1, 1, Count.zero⟩ = none := by
  refine ⟨rfl, by decide⟩

/-- C5: an iteration of `runner` whose GET returns an error, or whose status code is not
200, or whose body read returns an error, performs the single update `addErrorCount`:
`errorCount` goes up by one (as `atomic.AddUint64` computes it), `successCount`,
`totalRequestUseTime` and `totalRecvData` keep their values, and a runner with a
positive quota `q` goes on, after that iteration, as a runner with quota `q - 1` on the
attempts that follow. In a run started from zeroed counters the update never wraps
around: at every point of every interleaving it raises `errorCount` by exactly 1 and
leaves the other three counters as they are. -/
theorem failure_counts_one_error :
    (∀ (a : Attempt) (c : Count),
      (a.getErr = true ∨ a.statusCode ≠ 200 ∨ a.readErr = true) →
      runnerBody a = [Op.addErrorCount] ∧
      applyOps (runnerBody a) c = { c with errorCount := (c.errorCount + 1) % 2 ^ 64 } ∧
      (c.errorCount + 1 < 2 ^ 64 →
        (applyOps (runnerBody a) c).errorCount = c.errorCount + 1) ∧
      (applyOps (runnerBody a) c).successCount = c.successCount ∧
      (applyOps (runnerBody a) c).totalRequestUseTime = c.totalRequestUseTime ∧
      (applyOps (runnerBody a) c).totalRecvData = c.totalRecvData ∧
      ∀ (att : Nat → Attempt) (q : Int), 0 < q → att 0 = a →
        runner q att = [Op.addErrorCount] ++ runner (q - 1) (fun i => att (i + 1))) ∧
    (∀ (r : Gbench) (att : Nat → Nat → Attempt) (sys : Sys) (sched : List Nat) (s : Sys)
      (w : Nat) (rest : List Op),
      r.count = Count.zero → 1 ≤ r.concurrency → r.requests < 2 ^ 64 →
      Gbench.Run.launched r att = some sys → sys.exec sched = some s →
      s.workers.get? w = some (Op.addErrorCount :: rest) →
      s.step w =
        some ⟨{ s.count with errorCount := s.count.errorCount + 1 }, s.workers.set w rest⟩) := by
  constructor
  · intro a c hf
    have hb := runnerBody_failure a hf
    have happ : applyOps (runnerBody a) c =
        { c with errorCount := (c.errorCount + 1) % 2 ^ 64 } := by
      rw [hb]; rfl
    refine ⟨hb, happ, ?_, ?_, ?_, ?_, ?_⟩
    · intro h
      rw [happ]
      exact Nat.mod_eq_of_lt h
    · rw [happ]
    · rw [happ]
    · rw [happ]
    · intro att q hq h0
      rw [runner_pos att q hq, h0, hb]
  · intro r att sys sched s w rest hz hC hN hl he hw
    obtain ⟨hs, _, hb⟩ := run_pending_bounds r att hz hC hN sys hl sched s he w _ rest hw
    have hm : (s.count.errorCount + 1) % 2 ^ 64 = s.count.errorCount + 1 :=
      Nat.mod_eq_of_lt hb
    rw [hs]
    simp only [Op.apply, addErrorCount, atomicAddUint64, hm]

/-- C5, witness: a response with status 404, from counters 3, 1, 40, 50. -/
theorem failure_counts_one_error_witness :
    runnerBody ⟨false, 404, false, 12, 9⟩ = [Op.addErrorCount] ∧
    applyOps (runnerBody ⟨false, 404, false, 12, 9⟩) ⟨3, 1, 40, 50⟩ =
      { (⟨3, 1, 40, 50⟩ : Count) with errorCount := (1 + 1) % 2 ^ 64 } ∧
    (1 + 1 < 2 ^ 64 →
      (applyOps (runnerBody ⟨false, 404, false, 12, 9⟩) ⟨3, 1, 40, 50⟩).errorCount = 1 + 1) ∧
    (applyOps (runnerBody ⟨false, 404, false, 12, 9⟩) ⟨3, 1, 40, 50⟩).successCount = 3 ∧
    (applyOps (runnerBody ⟨false, 404, false, 12, 9⟩) ⟨3, 1, 40, 50⟩).totalRequestUseTime = 40 ∧
    (applyOps (runnerBody ⟨false, 404, false, 12, 9⟩) ⟨3, 1, 40, 50⟩).totalRecvData = 50 ∧
    ∀ (att : Nat → Attempt) (q : Int), 0 < q → att 0 = ⟨false, 404, false, 12, 9⟩ →
      runner q att = [Op.addErrorCount] ++ runner (q - 1) (fun i => att (i + 1)) :=
  failure_counts_one_error.1 ⟨false, 404, false, 12, 9⟩ ⟨3, 1, 40, 50⟩
    (Or.inr (Or.inl (by decide)))

/-- C6: an iteration of `runner` reaches `addSuccessCount` if and only if the GET returns
no error, the status code is 200 and the body is read without error, and it records an
error in every other case; a successful iteration adds 1 to `successCount`, the elapsed
time to `totalRequestUseTime` and the body length to `totalRecvData`, each as
`atomic.AddUint64` computes it, and keeps `errorCount`; where no counter passes
`2 ^ 64 - 1` these are the exact sums. In a run started from zeroed counters the update
of `successCount` never wraps around: at every point of every interleaving it raises
`successCount` by exactly 1 and leaves the other three counters as they are. -/
theorem success_iff_and_effect :
    (∀ (a : Attempt) (c : Count),
      (Op.addSuccessCount ∈ runnerBody a ↔
        (a.getErr = false ∧ a.statusCode = 200 ∧ a.readErr = false)) ∧
      (Op.addErrorCount ∈ runnerBody a ↔
        ¬ (a.getErr = false ∧ a.statusCode = 200 ∧ a.readErr = false)) ∧
      ((a.getErr = false ∧ a.statusCode = 200 ∧ a.readErr = false) →
        runnerBody a = [Op.addRequestTime (uint64 a.useTime),
          Op.addRecvData (uint64 a.dataLen), Op.addSuccessCount] ∧
        applyOps (runnerBody a) c =
          ⟨(c.successCount + 1) % 2 ^ 64, c.errorCount,
            (c.totalRequestUseTime + uint64 a.useTime) % 2 ^ 64,
            (c.totalRecvData + uint64 a.dataLen) % 2 ^ 64⟩ ∧
        (0 ≤ a.useTime → a.useTime < 2 ^ 63 → a.dataLen < 2 ^ 63 →
          c.successCount + 1 < 2 ^ 64 → c.totalRequestUseTime + a.useTime.toNat < 2 ^ 64 →
          c.totalRecvData + a.dataLen < 2 ^ 64 →
          applyOps (runnerBody a) c =
            ⟨c.successCount + 1, c.errorCount, c.totalRequestUseTime + a.useTime.toNat,
              c.totalRecvData + a.dataLen⟩))) ∧
    (∀ (r : Gbench) (att : Nat → Nat → Attempt) (sys : Sys) (sched : List Nat) (s : Sys)
      (w : Nat) (rest : List Op),
      r.count = Count.zero → 1 ≤ r.concurrency → r.requests < 2 ^ 64 →
      Gbench.Run.launched r att = some sys → sys.exec sched = some s →
      s.workers.get? w = some (Op.addSuccessCount :: rest) →
      s.step w =
        some ⟨{ s.count with successCount := s.count.successCount + 1 },
          s.workers.set w rest⟩) := by
  constructor
  · intro a c
    refine ⟨?_, ?_, ?_⟩
    · by_cases hs : a.getErr = false ∧ a.statusCode = 200 ∧ a.readErr = false
      · simp [runnerBody_success a hs, hs]
      · have hf : a.getErr = true ∨ a.statusCode ≠ 200 ∨ a.readErr = true := by
          rw [← isSuccess_eq_false_iff]
          rw [← isSuccess_eq_true_iff] at hs
          simpa using hs
        simp [runnerBody_failure a hf, hs]
    · by_cases hs : a.getErr = false ∧ a.statusCode = 200 ∧ a.readErr = false
      · simp [runnerBody_success a hs, hs]
      · have hf : a.getErr = true ∨ a.statusCode ≠ 200 ∨ a.readErr = true := by
          rw [← isSuccess_eq_false_iff]
          rw [← isSuccess_eq_true_iff] at hs
          simpa using hs
        simp [runnerBody_failure a hf, hs]
    · intro hs
      have happ : applyOps (runnerBody a) c =
          ⟨(c.successCount + 1) % 2 ^ 64, c.errorCount,
            (c.totalRequestUseTime + uint64 a.useTime) % 2 ^ 64,
            (c.totalRecvData + uint64 a.dataLen) % 2 ^ 64⟩ := by
        rw [runnerBody_success a hs]; rfl
      refine ⟨runnerBody_success a hs, happ, ?_⟩
      intro h0 h1 h2 h3 h4 h5
      have e1 : uint64 a.useTime = a.useTime.toNat := by
        unfold uint64
        omega
      have e2 : uint64 (a.dataLen : Int) = a.dataLen := uint64_of_nat (by omega)
      rw [happ, e1, e2, Nat.mod_eq_of_lt h3, Nat.mod_eq_of_lt h4, Nat.mod_eq_of_lt h5]
  · intro r att sys sched s w rest hz hC hN hl he hw
    obtain ⟨hs, hb, _⟩ := run_pending_bounds r att hz hC hN sys hl sched s he w _ rest hw
    have hm : (s.count.successCount + 1) % 2 ^ 64 = s.count.successCount + 1 :=
      Nat.mod_eq_of_lt hb
    rw [hs]
    simp only [Op.apply, addSuccessCount, atomicAddUint64, hm]

/-- C6, witness: a 200 response of 12 bytes taking 9 time units, from counters
3, 1, 40, 50. -/
theorem success_iff_and_effect_witness :
    runnerBody ⟨false, 200, false, 12, 9⟩ =
        [Op.addRequestTime (uint64 9), Op.addRecvData (uint64 ((12 : Nat) : Int)),
          Op.addSuccessCount] ∧
      applyOps (runnerBody ⟨false, 200, false, 12, 9⟩) ⟨3, 1, 40, 50⟩ =
        ⟨(3 + 1) % 2 ^ 64, 1, (40 + uint64 9) % 2 ^ 64,
          (50 + uint64 ((12 : Nat) : Int)) % 2 ^ 64⟩ ∧
      ((0 : Int) ≤ 9 → (9 : Int) < 2 ^ 63 → 12 < 2 ^ 63 → 3 + 1 < 2 ^ 64 →
        40 + (9 : Int).toNat < 2 ^ 64 → 50 + 12 < 2 ^ 64 →
        applyOps (runnerBody ⟨false, 200, false, 12, 9⟩) ⟨3, 1, 40, 50⟩ =
          ⟨3 + 1, 1, 40 + (9 : Int).toNat, 50 + 12⟩) :=
  (success_iff_and_effect.1 ⟨false, 200, false, 12, 9⟩ ⟨3, 1, 40, 50⟩).2.2 ⟨rfl, rfl, rfl⟩

/-- C7, the code at the failing input: `New` returns a `Gbench` for concurrency 0 with one
request, neither printing a message nor exiting, and on that accepted configuration
`Run` evaluates `r.requests % r.concurrency` with a zero divisor and panics. -/
theorem New_accepts_zero_concurrency :
    New "http://a" 0 1 = .ok ⟨"http://a", 0, 1, Count.zero⟩ ∧
    ¬ (1 ≤ (⟨"http://a", 0, 1, Count.zero⟩ : Gbench).concurrency) ∧
    Gbench.Run.quotas ⟨"http://a", 0, 1, Count.zero⟩ = none := by
  refine ⟨rfl, by decide, by decide⟩

/-- C8, counterexample: with `10 ^ 17` requests, all of them completed,
`int(completed) * 100` exceeds the largest `int` and wraps to a negative number:
`progress` renders `-84`, where `floor(100 × completed / N)` is 100. And with
`2 ^ 64 - 1` requests, one of them completed, `int(r.requests)` is `-1`: `progress`
renders `-100`, where `floor(100 × completed / N)` is 0. -/
theorem progress_counterexample :
    New "http://a" 1 (10 ^ 17) = .ok ⟨"http://a", 1, 10 ^ 17, Count.zero⟩ ∧
    Gbench.progress ⟨"http://a", 1, 10 ^ 17, ⟨10 ^ 17, 0, 0, 0⟩⟩ = some (-84) ∧
    ((100 * (10 ^ 17 + 0) / 10 ^ 17 : Nat) : Int) = 100 ∧
    (10 ^ 17 + 0 : Nat) ≤ 10 ^ 17 ∧
    New "http://a" 1 (2 ^ 64 - 1) = .ok ⟨"http://a", 1, 2 ^ 64 - 1, Count.zero⟩ ∧
    Gbench.progress ⟨"http://a", 1, 2 ^ 64 - 1, ⟨1, 0, 0, 0⟩⟩ = some (-100) ∧
    ((100 * (1 + 0) / (2 ^ 64 - 1) : Nat) : Int) = 0 := by
  refine ⟨rfl, by decide, by decide, by decide, rfl, by decide, by decide⟩

/-- C8, amended: for every configuration with `N ≥ C ≥ 1` (`N` a `uint64`) and every
counter state the computation of `progress` never divides by zero; whenever
`N < 2 ^ 63` and `100 × (successCount + errorCount) < 2 ^ 63`, the percentage rendered
equals `floor(100 × (successCount + errorCount) / N)`, and it lies between 0 and 100
when moreover `successCount + errorCount ≤ N`. -/
theorem progress_percentage (r : Gbench) (hC : 1 ≤ r.concurrency)
    (hCN : r.concurrency ≤ r.requests) (hN : r.requests < 2 ^ 64) :
    (∃ p, Gbench.progress r = some p) ∧
    (r.requests < 2 ^ 63 → 100 * (r.count.successCount + r.count.errorCount) < 2 ^ 63 →
      Gbench.progress r =
        some (((100 * (r.count.successCount + r.count.errorCount) / r.requests : Nat)) : Int) ∧
      (r.count.successCount + r.count.errorCount ≤ r.requests →
        ∃ p : Int, Gbench.progress r = some p ∧ 0 ≤ p ∧ p ≤ 100)) := by
  have hne : int r.requests ≠ 0 := int_ne_zero (by omega) hN
  constructor
  · rw [Gbench.progress, if_neg hne]
    exact ⟨_, rfl⟩
  · intro hN63 hb
    have hdiv : 100 * (r.count.successCount + r.count.errorCount) / r.requests ≤
        100 * (r.count.successCount + r.count.errorCount) := Nat.div_le_self _ _
    have hval : Gbench.progress r =
        some (((100 * (r.count.successCount + r.count.errorCount) / r.requests : Nat)) : Int) := by
      have hm : (r.count.successCount + r.count.errorCount) % 2 ^ 64 =
          r.count.successCount + r.count.errorCount := Nat.mod_eq_of_lt (by omega)
      have hmul : ((r.count.successCount + r.count.errorCount : Nat) : Int) * 100 =
          ((100 * (r.count.successCount + r.count.errorCount) : Nat) : Int) := by
        push_cast; ring
      simp only [Gbench.progress, hne, if_false]
      rw [hm, int_of_lt (by omega), hmul, wrapInt_of_nat hb, int_of_lt hN63,
        ← Int.ofNat_tdiv, wrapInt_of_nat (by omega)]
    refine ⟨hval, ?_⟩
    intro hle
    refine ⟨_, hval, Int.natCast_nonneg _, ?_⟩
    have h100 : 100 * (r.count.successCount + r.count.errorCount) / r.requests ≤ 100 := by
      apply Nat.div_le_of_le_mul
      have := Nat.mul_le_mul_left 100 hle
      rw [Nat.mul_comm r.requests 100]
      exact this
    exact_mod_cast h100

/-- C8, witness: 3 of 7 requests completed. -/
theorem progress_percentage_witness :
    (∃ p, Gbench.progress ⟨"http://a", 2, 7, ⟨2, 1, 0, 0⟩⟩ = some p) ∧
    (7 < 2 ^ 63 → 100 * (2 + 1) < 2 ^ 63 →
      Gbench.progress ⟨"http://a", 2, 7, ⟨2, 1, 0, 0⟩⟩ =
        some (((100 * (2 + 1) / 7 : Nat)) : Int) ∧
      (2 + 1 ≤ 7 →
        ∃ p : Int, Gbench.progress ⟨"http://a", 2, 7, ⟨2, 1, 0, 0⟩⟩ = some p ∧
          0 ≤ p ∧ p ≤ 100)) :=
  progress_percentage ⟨"http://a", 2, 7, ⟨2, 1, 0, 0⟩⟩ (by decide) (by decide) (by decide)

/-- C9, counterexample: with concurrency `2 ^ 63` and `2 ^ 64 - 1` requests, which `New`
accepts, `Run` launches no runner; every request that is executed fails (there is none),
the run completes with `errorCount = 0`, not `N`, and `String` then divides by zero. -/
theorem all_failed_counterexample :
    New "http://a" (2 ^ 63) (2 ^ 64 - 1) = .ok ⟨"http://a", 2 ^ 63, 2 ^ 64 - 1, Count.zero⟩ ∧
    Gbench.Run.wait ⟨"http://a", 2 ^ 63, 2 ^ 64 - 1, Count.zero⟩
      (fun _ _ => ⟨true, 0, false, 0, 0⟩) [] = some ⟨0, 0, 0, 0⟩ ∧
    (0 : Nat) ≠ 2 ^ 64 - 1 ∧
    Gbench.Run ⟨"http://a", 2 ^ 63, 2 ^ 64 - 1, Count.zero⟩
      (fun _ _ => ⟨true, 0, false, 0, 0⟩) [] = none := by
  refine ⟨rfl, by decide, by decide, by decide⟩

/-- C9, amended: for every configuration with `N ≥ C ≥ 1` and `N < 2 ^ 63`, if every
request fails, the run started from zeroed counters completes, and at the end
`successCount = 0`, `errorCount = N`, `totalRequestUseTime = 0`, `totalRecvData = 0`, and
`String` computes the mean time per request without fault, as 0. -/
theorem all_failed_report (r : Gbench) (att : Nat → Nat → Attempt)
    (hz : r.count = Count.zero) (hC : 1 ≤ r.concurrency) (hCN : r.concurrency ≤ r.requests)
    (hN : r.requests < 2 ^ 63)
    (hfail : ∀ w i, (att w i).getErr = true ∨ (att w i).statusCode ≠ 200 ∨
      (att w i).readErr = true) :
    (∃ sched rep, Gbench.Run r att sched = some rep) ∧
    (∀ sched c, Gbench.Run.wait r att sched = some c → c = ⟨0, r.requests, 0, 0⟩) ∧
    (∀ sched rep, Gbench.Run r att sched = some rep →
      rep.successRequests = 0 ∧ rep.errorRequests = r.requests ∧ rep.completeRequests = r.requests ∧
        rep.timePerRequest = 0 ∧ rep.totalRecv = 0) := by
  obtain ⟨qs, hq, _, _, _, hsum⟩ := quotas_sum_in_range r hC hCN hN
  obtain ⟨⟨sched0, c0, hw0⟩, hall⟩ := wait_counts r att hz (by omega) qs hq
  have hfalse : ∀ w i, (att w i).isSuccess = false := fun w i =>
    (isSuccess_eq_false_iff _).2 (hfail w i)
  have hS : successes att qs = 0 := by
    apply tally_zero; intro w i; rw [hfalse w i]; rfl
  have hT : successTime att qs = 0 := by
    apply tally_zero; intro w i; rw [hfalse w i]; rfl
  have hD : successData att qs = 0 := by
    apply tally_zero; intro w i; rw [hfalse w i]; rfl
  have hF : failures att qs = r.requests := by
    have := successes_add_failures att qs
    omega
  have hcount : ∀ sched c, Gbench.Run.wait r att sched = some c →
      c = ⟨0, r.requests, 0, 0⟩ := by
    intro sched c hw
    obtain ⟨h1, h2, h3, h4⟩ := hall sched c hw
    have h3 := h3 (by rw [hT]; decide)
    have h4 := h4 (by rw [hD]; decide)
    obtain ⟨a, b, t, d⟩ := c
    simp only at h1 h2 h3 h4
    rw [h1, h2, h3, h4, hS, hF, hT, hD]
  have hmod : (0 + r.requests) % 2 ^ 64 = r.requests := by
    rw [Nat.zero_add]; exact Nat.mod_eq_of_lt (by omega)
  have hstr : Gbench.String { r with count := ⟨0, r.requests, 0, 0⟩ } =
      some ⟨r.requests, r.requests, 0, r.requests, 0, 0⟩ := by
    have hne : r.requests ≠ 0 := by omega
    have hi : int 0 = 0 := by decide
    simp only [Gbench.String, hmod, hne, if_false, Nat.zero_div, hi]
  refine ⟨⟨sched0, ⟨r.requests, r.requests, 0, r.requests, 0, 0⟩, ?_⟩, hcount, ?_⟩
  · simp only [Gbench.Run, hw0, hcount sched0 c0 hw0]
    exact hstr
  · intro sched rep hrun
    simp only [Gbench.Run] at hrun
    split at hrun
    · simp at hrun
    · rename_i c hw
      rw [hcount sched c hw, hstr] at hrun
      simp only [Option.some.injEq] at hrun
      subst hrun
      exact ⟨rfl, rfl, rfl, rfl, rfl⟩

/-- C9, witness: concurrency 2, 3 requests, every GET returning an error. -/
theorem all_failed_report_witness :
    (∃ sched rep, Gbench.Run ⟨"http://a", 2, 3, Count.zero⟩
      (fun _ _ => ⟨true, 0, false, 0, 0⟩) sched = some rep) ∧
    (∀ sched c, Gbench.Run.wait ⟨"http://a", 2, 3, Count.zero⟩
      (fun _ _ => ⟨true, 0, false, 0, 0⟩) sched = some c → c = ⟨0, 3, 0, 0⟩) ∧
    (∀ sched rep, Gbench.Run ⟨"http://a", 2, 3, Count.zero⟩
      (fun _ _ => ⟨true, 0, false, 0, 0⟩) sched = some rep →
      rep.successRequests = 0 ∧ rep.errorRequests = 3 ∧ rep.completeRequests = 3 ∧
        rep.timePerRequest = 0 ∧ rep.totalRecv = 0) :=
  all_failed_report ⟨"http://a", 2, 3, Count.zero⟩ (fun _ _ => ⟨true, 0, false, 0, 0⟩)
    rfl (by decide) (by decide) (by decide) (fun _ _ => Or.inl rfl)

/-- C10, counterexample: one runner and `10 ^ 9` requests, each succeeding after 20 seconds
(`2 * 10 ^ 10` nanoseconds, within the 30 second timeout of the client). After the
first 922337203 requests `totalRequestUseTime` is 18446744060000000000; the next atomic
update, the `addRequestTime` of request 922337204, wraps the `uint64` counter around to
6290448384: the counter decreases. -/
theorem counter_decreases_counterexample :
    New "http://a" 1 (10 ^ 9) = .ok ⟨"http://a", 1, 10 ^ 9, Count.zero⟩ ∧
    ((Gbench.Run.launched ⟨"http://a", 1, 10 ^ 9, Count.zero⟩
        (fun _ _ => ⟨false, 200, false, 0, 2 * 10 ^ 10⟩)).bind
      (Sys.exec (List.replicate (3 * 922337203) 0))).map
        (fun s => s.count.totalRequestUseTime) = some 18446744060000000000 ∧
    ((Gbench.Run.launched ⟨"http://a", 1, 10 ^ 9, Count.zero⟩
        (fun _ _ => ⟨false, 200, false, 0, 2 * 10 ^ 10⟩)).bind
      (Sys.exec (List.replicate (3 * 922337203) 0 ++ [0]))).map
        (fun s => s.count.totalRequestUseTime) = some 6290448384 ∧
    (6290448384 : Nat) < 18446744060000000000 := by
  have hq : Gbench.Run.quotas ⟨"http://a", 1, 10 ^ 9, Count.zero⟩ = some [1000000000] := by
    decide
  have hl : Gbench.Run.launched ⟨"http://a", 1, 10 ^ 9, Count.zero⟩
      (fun _ _ => ⟨false, 200, false, 0, 2 * 10 ^ 10⟩) =
      some ⟨Count.zero,
        [runnerLoop (fun _ => ⟨false, 200, false, 0, 2 * 10 ^ 10⟩) 0 (77662796 + 1 + 922337203)]⟩ := by
    simp only [Gbench.Run.launched, hq, Option.map_some', Gbench.Run.spawn, runner]
    rfl
  obtain ⟨h1, h2⟩ := exec_lone_runner_next ⟨false, 200, false, 0, 2 * 10 ^ 10⟩ ⟨rfl, rfl, rfl⟩
    922337203 77662796
  have e1 : (922337203 * uint64 (2 * 10 ^ 10)) % 2 ^ 64 = 18446744060000000000 := by decide
  have e2 : ((922337203 * uint64 (2 * 10 ^ 10)) % 2 ^ 64 + uint64 (2 * 10 ^ 10)) % 2 ^ 64 =
      6290448384 := by decide
  refine ⟨rfl, ?_, ?_, by decide⟩
  · rw [hl, Option.some_bind, h1]
    exact congrArg some e1
  · rw [hl, Option.some_bind, h2]
    exact congrArg some e2

/-- C10, amended: for every configuration with `N ≥ C ≥ 1` (`N` a `uint64`), every
assignment of outcomes and every interleaving of the atomic updates of the runners from zeroed
counters, no update is lost: when all runners have finished, `successCount` is the number
of request executions classified as Success and `errorCount` the number classified as
failure (and the two sums are the totals over the Success executions, as long as those
totals are below `2 ^ 64`); `successCount` and `errorCount` never decrease during the
run, and `totalRequestUseTime` and `totalRecvData` never decrease as long as the total
the run adds to them is below `2 ^ 64`. Executions in which all runners finish exist. -/
theorem no_update_lost (r : Gbench) (att : Nat → Nat → Attempt)
    (hz : r.count = Count.zero) (hC : 1 ≤ r.concurrency) (hCN : r.concurrency ≤ r.requests)
    (hN : r.requests < 2 ^ 64) :
    ∃ qs sys, Gbench.Run.quotas r = some qs ∧ Gbench.Run.launched r att = some sys ∧
      (∃ sched s, sys.exec sched = some s ∧ s.finished = true) ∧
      ∀ sched s, sys.exec sched = some s →
        (s.finished = true →
          s.count.successCount = successes att qs ∧ s.count.errorCount = failures att qs ∧
          (successTime att qs < 2 ^ 64 → s.count.totalRequestUseTime = successTime att qs) ∧
          (successData att qs < 2 ^ 64 → s.count.totalRecvData = successData att qs)) ∧
        ∀ w s1, s.step w = some s1 →
          s.count.successCount ≤ s1.count.successCount ∧
          s.count.errorCount ≤ s1.count.errorCount ∧
          (successTime att qs < 2 ^ 64 →
            s.count.totalRequestUseTime ≤ s1.count.totalRequestUseTime) ∧
          (successData att qs < 2 ^ 64 → s.count.totalRecvData ≤ s1.count.totalRecvData) := by
  obtain ⟨qs, hq, _⟩ := quotas_total_le r (by omega)
  obtain ⟨hl, hsf, hle, hinv⟩ := launched_invariant r att hz hN qs hq
  refine ⟨qs, ⟨r.count, Gbench.Run.spawn att 0 qs⟩, hq, hl,
    Sys.exists_complete _ ⟨r.count, Gbench.Run.spawn att 0 qs⟩ rfl, ?_⟩
  intro sched s he
  obtain ⟨i1, i2, i3, i4⟩ := hinv sched s he
  constructor
  · intro hf
    rw [pending_of_finished _ hf] at i1 i2
    refine ⟨i1, i2, ?_, ?_⟩
    · intro hb
      have := i3 hb
      rw [pending_of_finished _ hf] at this
      exact this
    · intro hb
      have := i4 hb
      rw [pending_of_finished _ hf] at this
      exact this
  · intro w s1 hs
    refine ⟨?_, ?_, ?_, ?_⟩
    · exact (Sys.step_exact tracks_successCount hs (by omega)).2
    · exact (Sys.step_exact tracks_errorCount hs (by omega)).2
    · intro hb
      have := i3 hb
      exact (Sys.step_exact tracks_totalRequestUseTime hs (by omega)).2
    · intro hb
      have := i4 hb
      exact (Sys.step_exact tracks_totalRecvData hs (by omega)).2

/-- C10, witness: two runners sharing three requests, each a 200 response of 12 bytes
taking 9 time units. -/
theorem no_update_lost_witness :
    ∃ qs sys, Gbench.Run.quotas ⟨"http://a", 2, 3, Count.zero⟩ = some qs ∧
      Gbench.Run.launched ⟨"http://a", 2, 3, Count.zero⟩
        (fun _ _ => ⟨false, 200, false, 12, 9⟩) = some sys ∧
      (∃ sched s, sys.exec sched = some s ∧ s.finished = true) ∧
      ∀ sched s, sys.exec sched = some s →
        (s.finished = true →
          s.count.successCount = successes (fun _ _ => ⟨false, 200, false, 12, 9⟩) qs ∧
          s.count.errorCount = failures (fun _ _ => ⟨false, 200, false, 12, 9⟩) qs ∧
          (successTime (fun _ _ => ⟨false, 200, false, 12, 9⟩) qs < 2 ^ 64 →
            s.count.totalRequestUseTime =
              successTime (fun _ _ => ⟨false, 200, false, 12, 9⟩) qs) ∧
          (successData (fun _ _ => ⟨false, 200, false, 12, 9⟩) qs < 2 ^ 64 →
            s.count.totalRecvData = successData (fun _ _ => ⟨false, 200, false, 12, 9⟩) qs)) ∧
        ∀ w s1, s.step w = some s1 →
          s.count.successCount ≤ s1.count.successCount ∧
          s.count.errorCount ≤ s1.count.errorCount ∧
          (successTime (fun _ _ => ⟨false, 200, false, 12, 9⟩) qs < 2 ^ 64 →
            s.count.totalRequestUseTime ≤ s1.count.totalRequestUseTime) ∧
          (successData (fun _ _ => ⟨false, 200, false, 12, 9⟩) qs < 2 ^ 64 →
            s.count.totalRecvData ≤ s1.count.totalRecvData) :=
  no_update_lost ⟨"http://a", 2, 3, Count.zero⟩ (fun _ _ => ⟨false, 200, false, 12, 9⟩)
    rfl (by decide) (by decide) (by decide)

end gbench
